import Mathlib

/-!
Verification of the QuantumEmbeddings repository: shallow embedding of the
embedding-scheme generators (Basis, Angle, Displacement, Squeezing, and the
spec-described Amplitude scheme) together with the two custom
continuous-variable gate definitions, plus proofs of the specification's
claims about them.

Circuits are modelled as lists of operations carrying symbolic parameter
expressions, mirroring the Qiskit `ParameterVector` based construction in the
source.  Real-valued gate parameters (the custom-gate matrices and inverse)
are modelled over `ℝ`; Python's float modulo `%` with a positive divisor is
modelled as the real operation `x - y * ⌊x / y⌋`.
-/

namespace QuantumEmbeddings

/-- Configuration error: models `qiskit.exceptions.QiskitError` raised by the
constructors (the spec's ConfigurationError). -/
structure ConfigError where
  msg : String
deriving DecidableEq, Repr

/-- Symbolic parameter expression appearing in an emitted operation: a
`ParameterVector` entry `x[i]`, a numeric literal, or `π * e`. -/
inductive PExpr where
  | x : ℕ → PExpr
  | lit : ℚ → PExpr
  | piMul : PExpr → PExpr
deriving DecidableEq, Repr

/-- One emitted circuit operation: gate name, parameter expressions, and the
qubit indices it acts on (the arguments of `qc.append` / `qc.rx` etc.). -/
structure CircuitOp where
  gate : String
  params : List PExpr
  qubits : List ℕ
deriving DecidableEq, Repr

/-! ### Basis embedding (src/BasisEmbedding.ipynb) -/

structure BasisEmbedding where
  num_qubits : ℤ
deriving DecidableEq, Repr

/-- Constructor of `BasisEmbedding`: raises QiskitError when
`num_qubits <= 0`, otherwise stores the qubit count. -/
def BasisEmbedding.init (n : ℤ) : Except ConfigError BasisEmbedding :=
  if n ≤ 0 then .error ⟨"num_qubits must be a positive integer."⟩
  else .ok ⟨n⟩

/-- Translation of `BasisEmbedding.create_circuit`: for each qubit emit
`qc.rx(np.pi * self.params[qubit], qubit)`. -/
def BasisEmbedding.create_circuit (e : BasisEmbedding) : List CircuitOp :=
  (List.range e.num_qubits.toNat).map fun q => ⟨"rx", [.piMul (.x q)], [q]⟩

/-! ### Displacement embedding (AngleEmbedding file bundle, first notebook) -/

structure DisplacementEmbedding where
  num_qubits : ℤ
  amplitude : Bool
deriving DecidableEq, Repr

/-- Constructor of `DisplacementEmbedding`: the source performs no validation
whatsoever (it only stores the fields and allocates the parameter vector,
and `ParameterVector` accepts any length since `range` of a non-positive
number is empty), so construction never raises. -/
def DisplacementEmbedding.init (n : ℤ) (amp : Bool) :
    Except ConfigError DisplacementEmbedding :=
  .ok ⟨n, amp⟩

/-- Translation of `DisplacementEmbedding.create_circuit`: one
`DisplacementGate` per qubit; parameters `(x[i], 0.1)` when `amplitude`,
`(0.1, x[i])` otherwise. -/
def DisplacementEmbedding.create_circuit (e : DisplacementEmbedding) :
    List CircuitOp :=
  (List.range e.num_qubits.toNat).map fun i =>
    if e.amplitude then ⟨"D", [.x i, .lit (1/10)], [i]⟩
    else ⟨"D", [.lit (1/10), .x i], [i]⟩

/-! ### Squeezing embedding (src/SqueezingEmbedding.ipynb) -/

structure SqueezingEmbedding where
  num_qubits : ℤ
  amplitude : Bool
deriving DecidableEq, Repr

/-- Constructor of `SqueezingEmbedding`: like the displacement one, the
source performs no validation, so construction never raises. -/
def SqueezingEmbedding.init (n : ℤ) (amp : Bool) :
    Except ConfigError SqueezingEmbedding :=
  .ok ⟨n, amp⟩

/-- Translation of `SqueezingEmbedding.create_circuit`: one `SqueezingGate`
per qubit; parameters `(x[i], 0.1)` when `amplitude`, `(0.1, x[i])`
otherwise. -/
def SqueezingEmbedding.create_circuit (e : SqueezingEmbedding) :
    List CircuitOp :=
  (List.range e.num_qubits.toNat).map fun i =>
    if e.amplitude then ⟨"S", [.x i, .lit (1/10)], [i]⟩
    else ⟨"S", [.lit (1/10), .x i], [i]⟩

/-! ### Angle embedding (AngleEmbedding file bundle, second notebook) -/

inductive GateKind where
  | RX | RY | RZ
deriving DecidableEq, Repr

/-- One rotation operation of the angle embedding: the gate kind, the qubit
it acts on, and the index of the `ParameterVector` entry used as its angle. -/
structure RotOp where
  kind : GateKind
  qubit : ℕ
  paramIndex : ℕ
deriving DecidableEq, Repr

structure AngleEmbedding where
  gate_sequence : List String
  num_qubits : ℤ
  repeat_parameters : Bool
deriving DecidableEq, Repr

/-- The source's `valid_gates = ('RY', 'RZ', 'RX')` set. -/
def validGates : List String := ["RY", "RZ", "RX"]

/-- Constructor of `AngleEmbedding`: the source first checks that
`gate_sequence` is a list of strings (enforced here by typing), then that
`num_qubits` is positive, then that every gate is a member of the valid set;
the first failing check raises QiskitError. -/
def AngleEmbedding.init (gs : List String) (n : ℤ) (rp : Bool) :
    Except ConfigError AngleEmbedding :=
  if n ≤ 0 then .error ⟨"num_qubits must be a positive integer."⟩
  else if gs.any (fun g => !(validGates.contains g)) then
    .error ⟨"gate_sequence contains invalid gates."⟩
  else .ok ⟨gs, n, rp⟩

/-- The if/elif dispatch of `_layer_sequence` on the gate-name string:
`'RY'`, then `'RZ'`, then `'RX'`; anything else emits no gate. -/
def gateKind? (g : String) : Option GateKind :=
  if g = "RY" then some .RY
  else if g = "RZ" then some .RZ
  else if g = "RX" then some .RX
  else none

/-- One pass of the inner loop of `_layer_sequence` for a single gate-name
`g`: iterate the qubits `0 .. n-1`; the running parameter counter starts at
`idx` and increments once per iteration whether or not a gate was emitted,
so iteration `j` uses index `idx + j` (or `x[j]` when repeating). -/
def angleRow (g : String) (rp : Bool) (n idx : ℕ) : List RotOp :=
  (List.range n).filterMap fun j =>
    (gateKind? g).map fun k => ⟨k, j, if rp then j else idx + j⟩

/-- The outer loop of `_layer_sequence` over the gate sequence, threading the
running parameter counter: each layer advances it by `n` when parameters are
not repeated, and leaves it untouched when they are. -/
def angleLayersAux (n : ℕ) (rp : Bool) : List String → ℕ → List RotOp
  | [], _ => []
  | g :: gs, idx => angleRow g rp n idx ++ angleLayersAux n rp gs (if rp then idx else idx + n)

/-- Translation of `AngleEmbedding._layer_sequence`. -/
def AngleEmbedding.layer_sequence (e : AngleEmbedding) : List RotOp :=
  angleLayersAux e.num_qubits.toNat e.repeat_parameters e.gate_sequence 0

/-- The `x_length` computed by `_layer_sequence` (length of the
`ParameterVector`). -/
def AngleEmbedding.xLength (e : AngleEmbedding) : ℕ :=
  if e.repeat_parameters then e.num_qubits.toNat
  else e.num_qubits.toNat * e.gate_sequence.length

/-! ### Lemmas about the angle embedding -/

lemma gateKind?_of_valid {g : String} (h : g ∈ validGates) :
    ∃ k, gateKind? g = some k := by
  simp only [validGates, List.mem_cons, List.mem_singleton, List.not_mem_nil, or_false] at h
  rcases h with h | h | h <;> subst h <;> exact ⟨_, rfl⟩

lemma angleRow_eq_map {g : String} {k : GateKind} (hk : gateKind? g = some k)
    (rp : Bool) (n idx : ℕ) :
    angleRow g rp n idx =
      (List.range n).map fun j => ⟨k, j, if rp then j else idx + j⟩ := by
  unfold angleRow
  rw [hk]
  exact List.filterMap_eq_map _ ▸ rfl

lemma angleLayersAux_length {n : ℕ} {rp : Bool} :
    ∀ (gs : List String) (idx : ℕ), (∀ g ∈ gs, g ∈ validGates) →
      (angleLayersAux n rp gs idx).length = gs.length * n := by
  intro gs
  induction gs with
  | nil => intro idx _; simp [angleLayersAux]
  | cons g gs ih =>
    intro idx hv
    obtain ⟨k, hk⟩ := gateKind?_of_valid (hv g (by simp))
    have ihe := ih (if rp then idx else idx + n) (fun g' hg' => hv g' (by simp [hg']))
    simp only [angleLayersAux, List.length_append, ihe, angleRow_eq_map hk,
      List.length_map, List.length_range, List.length_cons]
    ring

lemma angleLayersAux_getElem? {n : ℕ} {rp : Bool} :
    ∀ (gs : List String) (idx ℓ : ℕ) (g : String), (∀ g' ∈ gs, g' ∈ validGates) →
      gs[ℓ]? = some g → ∀ j, j < n →
      (angleLayersAux n rp gs idx)[ℓ * n + j]? =
        (gateKind? g).map fun k => ⟨k, j, if rp then j else idx + (ℓ * n + j)⟩ := by
  intro gs
  induction gs with
  | nil => intro idx ℓ g _ hg; simp at hg
  | cons g' gs ih =>
    intro idx ℓ g hv hg j hj
    obtain ⟨k', hk'⟩ := gateKind?_of_valid (hv g' (by simp))
    cases ℓ with
    | zero =>
      have hgg : g' = g := by simpa using hg
      subst hgg
      simp [angleLayersAux, angleRow_eq_map hk', List.getElem?_append,
        hj, List.getElem?_range hj, hk']
    | succ ℓ =>
      have hg' : gs[ℓ]? = some g := by simpa using hg
      have hlen : (angleRow g' rp n idx).length = n := by
        simp [angleRow_eq_map hk']
      have hle : (angleRow g' rp n idx).length ≤ (ℓ + 1) * n + j := by
        rw [hlen]; nlinarith
      rw [angleLayersAux, List.getElem?_append_right hle, hlen]
      have hidx : (ℓ + 1) * n + j - n = ℓ * n + j := by
        have : (ℓ + 1) * n = ℓ * n + n := by ring
        omega
      rw [hidx,
        ih (if rp then idx else idx + n) ℓ g (fun g'' hg'' => hv g'' (by simp [hg''])) hg' j hj]
      cases rp with
      | true => simp
      | false =>
        simp only [Bool.false_eq_true, if_false]
        have harith : idx + n + (ℓ * n + j) = idx + ((ℓ + 1) * n + j) := by ring
        rw [harith]

lemma angleLayersAux_map_false {n : ℕ} :
    ∀ (gs : List String) (idx : ℕ), (∀ g ∈ gs, g ∈ validGates) →
      (angleLayersAux n false gs idx).map RotOp.paramIndex =
        List.range' idx (gs.length * n) := by
  intro gs
  induction gs with
  | nil => intro idx _; simp [angleLayersAux]
  | cons g gs ih =>
    intro idx hv
    obtain ⟨k, hk⟩ := gateKind?_of_valid (hv g (by simp))
    have ihe := ih (idx + n) (fun g' hg' => hv g' (by simp [hg']))
    have hrow : (angleRow g false n idx).map RotOp.paramIndex = List.range' idx n := by
      simp only [angleRow_eq_map hk, List.map_map, List.range'_eq_map_range]
      rfl
    have happ := List.range'_append idx n (gs.length * n) 1
    simp only [one_mul] at happ
    rw [angleLayersAux, List.map_append, hrow,
      show (if (false : Bool) = true then idx else idx + n) = idx + n from rfl,
      ihe, happ]
    congr 1
    simp [List.length_cons]
    ring

lemma list_range_toFinset (n : ℕ) : (List.range n).toFinset = Finset.range n := by
  ext x; simp

lemma angleLayersAux_map_true {n : ℕ} :
    ∀ (gs : List String) (idx : ℕ), (∀ g ∈ gs, g ∈ validGates) → gs ≠ [] →
      ((angleLayersAux n true gs idx).map RotOp.paramIndex).toFinset = Finset.range n := by
  intro gs
  induction gs with
  | nil => intro idx _ hne; exact absurd rfl hne
  | cons g gs ih =>
    intro idx hv _
    obtain ⟨k, hk⟩ := gateKind?_of_valid (hv g (by simp))
    have hrow : (angleRow g true n idx).map RotOp.paramIndex = List.range n := by
      simp only [angleRow_eq_map hk, List.map_map]
      exact List.map_id _ ▸ rfl
    cases gs with
    | nil =>
      simp [angleLayersAux, hrow, list_range_toFinset]
    | cons g' gs' =>
      have ihe := ih idx (fun g'' hg'' => hv g'' (by simp [hg''])) (by simp)
      rw [angleLayersAux, List.map_append, hrow, List.toFinset_append,
        list_range_toFinset,
        show (if (true : Bool) = true then idx else idx + n) = idx from rfl,
        ihe]
      exact Finset.union_self _

lemma angle_init_ok {gs : List String} {n : ℤ} {rp : Bool} {e : AngleEmbedding}
    (h : AngleEmbedding.init gs n rp = .ok e) :
    e = ⟨gs, n, rp⟩ ∧ 0 < n ∧ ∀ g ∈ gs, g ∈ validGates := by
  unfold AngleEmbedding.init at h
  split at h
  · exact absurd h (by simp)
  · next h1 =>
    split at h
    · exact absurd h (by simp)
    · next h2 =>
      have hv : ∀ g ∈ gs, g ∈ validGates := by
        intro g hg
        by_contra hng
        exact h2 (List.any_eq_true.mpr ⟨g, hg, by simp [hng]⟩)
      refine ⟨by simpa using h.symm, by omega, hv⟩

/-- C1: for every valid Angle configuration, `_layer_sequence` produces
exactly `num_qubits * len(gate_sequence)` operations in layer-major,
qubit-minor order; the gate of layer `ℓ` on qubit `j` uses parameter
`x[j]` when repeating and `x[ℓ*num_qubits + j]` otherwise; when not
repeating the parameter indices are exactly `0 .. num_qubits*layers - 1`
in order (hence no repeats), and when repeating exactly `num_qubits`
distinct indices occur. -/
theorem angle_embedding_layer_major (gs : List String) (n : ℤ) (rp : Bool)
    (e : AngleEmbedding) (h : AngleEmbedding.init gs n rp = .ok e) (hne : gs ≠ []) :
    e.layer_sequence.length = n.toNat * gs.length
    ∧ (∀ (ℓ : ℕ) (g : String), gs[ℓ]? = some g → ∀ j, j < n.toNat →
        e.layer_sequence[ℓ * n.toNat + j]? =
          (gateKind? g).map fun k => ⟨k, j, if rp then j else ℓ * n.toNat + j⟩)
    ∧ (rp = false →
        e.layer_sequence.map RotOp.paramIndex = List.range (n.toNat * gs.length))
    ∧ (rp = true →
        (e.layer_sequence.map RotOp.paramIndex).toFinset = Finset.range n.toNat) := by
  obtain ⟨he, hn, hv⟩ := angle_init_ok h
  subst he
  refine ⟨?_, ?_, ?_, ?_⟩
  · rw [AngleEmbedding.layer_sequence, angleLayersAux_length gs 0 hv]
    exact Nat.mul_comm _ _
  · intro ℓ g hg j hj
    rw [AngleEmbedding.layer_sequence, angleLayersAux_getElem? gs 0 ℓ g hv hg j hj]
    simp
  · intro hrp
    subst hrp
    rw [AngleEmbedding.layer_sequence, angleLayersAux_map_false gs 0 hv,
      Nat.mul_comm, List.range_eq_range']
  · intro hrp
    subst hrp
    exact angleLayersAux_map_true gs 0 hv hne

/-- Witness for C1 at `gate_sequence = ["RY", "RZ"]`, `num_qubits = 2`,
`repeat_parameters = false` (the notebook's example shape). -/
theorem angle_embedding_layer_major_witness :
    (AngleEmbedding.layer_sequence ⟨["RY", "RZ"], 2, false⟩).length = 4
    ∧ (∀ (ℓ : ℕ) (g : String), (["RY", "RZ"] : List String)[ℓ]? = some g →
        ∀ j, j < 2 →
        (AngleEmbedding.layer_sequence ⟨["RY", "RZ"], 2, false⟩)[ℓ * 2 + j]? =
          (gateKind? g).map fun k => ⟨k, j, if false then j else ℓ * 2 + j⟩)
    ∧ (false = false →
        (AngleEmbedding.layer_sequence ⟨["RY", "RZ"], 2, false⟩).map RotOp.paramIndex =
          List.range 4)
    ∧ (false = true →
        ((AngleEmbedding.layer_sequence ⟨["RY", "RZ"], 2, false⟩).map
          RotOp.paramIndex).toFinset = Finset.range 2) :=
  angle_embedding_layer_major ["RY", "RZ"] 2 false ⟨["RY", "RZ"], 2, false⟩ rfl
    (by simp)

/-! ### Basis, Displacement and Squeezing scheme claims -/

lemma basis_init_ok {n : ℤ} {e : BasisEmbedding}
    (h : BasisEmbedding.init n = .ok e) : e = ⟨n⟩ ∧ 0 < n := by
  unfold BasisEmbedding.init at h
  split at h
  · exact absurd h (by simp)
  · next h1 => exact ⟨by simpa using h.symm, by omega⟩

/-- C2: for every `num_qubits > 0`, the basis circuit has exactly
`num_qubits` operations, the `i`-th being an X-rotation on qubit `i` with
parameter expression `π * x[i]`. -/
theorem basis_embedding_ops (n : ℤ) (e : BasisEmbedding)
    (h : BasisEmbedding.init n = .ok e) :
    e.create_circuit.length = n.toNat
    ∧ ∀ i, i < n.toNat →
        e.create_circuit[i]? = some ⟨"rx", [.piMul (.x i)], [i]⟩ := by
  obtain ⟨he, hn⟩ := basis_init_ok h
  subst he
  constructor
  · simp [BasisEmbedding.create_circuit]
  · intro i hi
    simp [BasisEmbedding.create_circuit, List.getElem?_map, List.getElem?_range hi]

/-- Witness for C2 at `num_qubits = 4` (the notebook's example). -/
theorem basis_embedding_ops_witness :
    (BasisEmbedding.create_circuit ⟨4⟩).length = 4
    ∧ ∀ i, i < 4 →
        (BasisEmbedding.create_circuit ⟨4⟩)[i]? = some ⟨"rx", [.piMul (.x i)], [i]⟩ :=
  basis_embedding_ops 4 ⟨4⟩ rfl

/-- C3: for every `num_qubits > 0` and boolean selector, the Displacement
and Squeezing schemes each emit exactly one custom gate per qubit in
ascending qubit order and nothing else; with the amplitude selector true the
gate on qubit `i` carries parameters `(x[i], 0.1)`, otherwise `(0.1, x[i])`. -/
theorem displacement_squeezing_ops (n : ℤ) (hn : 0 < n) (amp : Bool) :
    (DisplacementEmbedding.create_circuit ⟨n, amp⟩).length = n.toNat
    ∧ (SqueezingEmbedding.create_circuit ⟨n, amp⟩).length = n.toNat
    ∧ (∀ i, i < n.toNat →
        (DisplacementEmbedding.create_circuit ⟨n, amp⟩)[i]? =
          some (if amp then ⟨"D", [.x i, .lit (1/10)], [i]⟩
                else ⟨"D", [.lit (1/10), .x i], [i]⟩))
    ∧ (∀ i, i < n.toNat →
        (SqueezingEmbedding.create_circuit ⟨n, amp⟩)[i]? =
          some (if amp then ⟨"S", [.x i, .lit (1/10)], [i]⟩
                else ⟨"S", [.lit (1/10), .x i], [i]⟩)) := by
  refine ⟨by simp [DisplacementEmbedding.create_circuit],
    by simp [SqueezingEmbedding.create_circuit], ?_, ?_⟩
  · intro i hi
    simp [DisplacementEmbedding.create_circuit, List.getElem?_map,
      List.getElem?_range hi]
  · intro i hi
    simp [SqueezingEmbedding.create_circuit, List.getElem?_map,
      List.getElem?_range hi]

/-- Witness for C3 at `num_qubits = 3`, `amplitude = true` (the notebooks'
example). -/
theorem displacement_squeezing_ops_witness :
    (DisplacementEmbedding.create_circuit ⟨3, true⟩).length = 3
    ∧ (SqueezingEmbedding.create_circuit ⟨3, true⟩).length = 3
    ∧ (∀ i, i < 3 →
        (DisplacementEmbedding.create_circuit ⟨3, true⟩)[i]? =
          some (if true then ⟨"D", [.x i, .lit (1/10)], [i]⟩
                else ⟨"D", [.lit (1/10), .x i], [i]⟩))
    ∧ (∀ i, i < 3 →
        (SqueezingEmbedding.create_circuit ⟨3, true⟩)[i]? =
          some (if true then ⟨"S", [.x i, .lit (1/10)], [i]⟩
                else ⟨"S", [.lit (1/10), .x i], [i]⟩)) :=
  displacement_squeezing_ops 3 (by norm_num) true

/-! ### Construction-time validation claims (C7, C8) -/

/-- Modelled from the spec: the Amplitude scheme's constructor. Its source
code is not part of src/ (the repository README documents the scheme but no
AmplitudeEmbedding class is present); section 4.5 of the specification says
construction with `num_qubits ≤ 0` fails with ConfigurationError. -/
def amplitudeInit (n : ℤ) : Except ConfigError Unit :=
  if n ≤ 0 then .error ⟨"num_qubits must be a positive integer."⟩ else .ok ()

/-- C7 counterexample: constructing the Displacement or Squeezing scheme
with `num_qubits = 0` succeeds (the source constructors perform no
validation), contradicting the claim that every scheme fails with
ConfigurationError for non-positive qubit counts. -/
theorem scheme_init_zero_qubits_cex :
    DisplacementEmbedding.init 0 true = .ok ⟨0, true⟩
    ∧ SqueezingEmbedding.init 0 true = .ok ⟨0, true⟩ :=
  ⟨rfl, rfl⟩

/-- C7 amended: for `num_qubits ≤ 0`, the Basis and Angle constructors (and
the spec-modelled Amplitude constructor) fail with ConfigurationError, while
the Displacement and Squeezing constructors perform no validation and always
succeed. -/
theorem scheme_init_validation_amended (n : ℤ) (hn : n ≤ 0) :
    (∃ er, BasisEmbedding.init n = .error er)
    ∧ (∀ gs rp, ∃ er, AngleEmbedding.init gs n rp = .error er)
    ∧ (∃ er, amplitudeInit n = .error er)
    ∧ (∀ amp, DisplacementEmbedding.init n amp = .ok ⟨n, amp⟩)
    ∧ (∀ amp, SqueezingEmbedding.init n amp = .ok ⟨n, amp⟩) := by
  refine ⟨⟨⟨"num_qubits must be a positive integer."⟩, ?_⟩,
    fun gs rp => ⟨⟨"num_qubits must be a positive integer."⟩, ?_⟩,
    ⟨⟨"num_qubits must be a positive integer."⟩, ?_⟩,
    fun amp => rfl, fun amp => rfl⟩
  · rw [BasisEmbedding.init, if_pos hn]
  · rw [AngleEmbedding.init, if_pos hn]
  · rw [amplitudeInit, if_pos hn]

/-- Witness for the amended C7 at `num_qubits = 0`. -/
theorem scheme_init_validation_amended_witness :
    (∃ er, BasisEmbedding.init 0 = .error er)
    ∧ (∀ gs rp, ∃ er, AngleEmbedding.init gs 0 rp = .error er)
    ∧ (∃ er, amplitudeInit 0 = .error er)
    ∧ (∀ amp, DisplacementEmbedding.init 0 amp = .ok ⟨0, amp⟩)
    ∧ (∀ amp, SqueezingEmbedding.init 0 amp = .ok ⟨0, amp⟩) :=
  scheme_init_validation_amended 0 (by norm_num)

/-- C8 counterexample: constructing the Angle scheme with an empty
`gate_sequence` succeeds, contradicting the claim that an empty sequence
fails with ConfigurationError. -/
theorem angle_init_empty_ok_cex :
    AngleEmbedding.init [] 1 false = .ok ⟨[], 1, false⟩ := rfl

/-- C8 amended: a `gate_sequence` containing a kind outside the valid set
{RY, RZ, RX} makes construction fail with ConfigurationError (whatever the
qubit count), but an empty `gate_sequence` is accepted when `num_qubits` is
positive, and produces an empty circuit. -/
theorem angle_init_validation_amended (gs : List String) (n : ℤ) (rp : Bool) :
    ((∃ g ∈ gs, g ∉ validGates) → ∃ er, AngleEmbedding.init gs n rp = .error er)
    ∧ (0 < n → AngleEmbedding.init [] n rp = .ok ⟨[], n, rp⟩)
    ∧ AngleEmbedding.layer_sequence ⟨[], n, rp⟩ = [] := by
  refine ⟨?_, ?_, rfl⟩
  · rintro ⟨g, hg, hng⟩
    unfold AngleEmbedding.init
    by_cases hn : n ≤ 0
    · exact ⟨_, by rw [if_pos hn]⟩
    · rw [if_neg hn, if_pos (List.any_eq_true.mpr ⟨g, hg, by simp [hng]⟩)]
      exact ⟨_, rfl⟩
  · intro hn
    unfold AngleEmbedding.init
    rw [if_neg (by omega)]
    simp

/-- Witness for the amended C8: `["CX"]` is rejected, `[]` is accepted. -/
theorem angle_init_validation_amended_witness :
    (∃ er, AngleEmbedding.init ["CX"] 1 false = .error er)
    ∧ AngleEmbedding.init [] 1 false = .ok ⟨[], 1, false⟩
    ∧ AngleEmbedding.layer_sequence ⟨[], 1, false⟩ = [] :=
  ⟨(angle_init_validation_amended ["CX"] 1 false).1
      ⟨"CX", by simp, by decide⟩,
   (angle_init_validation_amended [] 1 false).2.1 (by norm_num),
   (angle_init_validation_amended [] 1 false).2.2⟩

/-! ### Custom continuous-variable gates (DisplacementGate, SqueezingGate) -/

/-- Kind tag distinguishing the two custom gate classes
(`DisplacementGate`, circuit name "D", and `SqueezingGate`, name "S"). -/
inductive CVKind where
  | displacement
  | squeezing
deriving DecidableEq, Repr

/-- A custom continuous-variable gate: a class tag and the two real
parameters `(magnitude, angle)` stored in `self.params`. -/
structure CVGate where
  kind : CVKind
  magnitude : ℝ
  angle : ℝ

/-- Python float modulo with a positive divisor, modelled over the reals:
`x % y = x - y * ⌊x / y⌋` (the remainder with the sign of the divisor). -/
noncomputable def pymod (x y : ℝ) : ℝ := x - y * ⌊x / y⌋

/-- Translation of `DisplacementGate.inverse` and `SqueezingGate.inverse`
(textually identical in the two classes): `new_phi = (phi + np.pi) %
(2 * np.pi)`, magnitude and class unchanged, no failure path. -/
noncomputable def CVGate.inverse (g : CVGate) : CVGate :=
  ⟨g.kind, g.magnitude, pymod (g.angle + Real.pi) (2 * Real.pi)⟩

/-- Translation of the matrix built in `DisplacementGate._define`. -/
noncomputable def D_matrix (a phi : ℝ) : Matrix (Fin 3) (Fin 3) ℝ :=
  ![![1, 0, 0],
    ![2 * a * Real.cos phi, 1, 0],
    ![2 * a * Real.sin phi, 0, 1]]

/-- Translation of the matrix built in `SqueezingGate._define`. -/
noncomputable def S_matrix (r phi : ℝ) : Matrix (Fin 3) (Fin 3) ℝ :=
  ![![1, 0, 0],
    ![0, Real.cosh r - Real.cos phi * Real.sinh r, -Real.sin phi * Real.sinh r],
    ![0, -Real.sin phi * Real.sinh r, Real.cosh r + Real.cos phi * Real.sinh r]]

lemma pymod_eq_sub (x y : ℝ) : ∃ k : ℤ, pymod x y = x - y * k :=
  ⟨⌊x / y⌋, rfl⟩

lemma pymod_mem_Ico (x y : ℝ) (hy : 0 < y) : 0 ≤ pymod x y ∧ pymod x y < y := by
  have hy' : y ≠ 0 := ne_of_gt hy
  have h : pymod x y = y * Int.fract (x / y) := by
    rw [pymod, Int.fract, mul_sub, mul_div_cancel₀ x hy']
  refine ⟨?_, ?_⟩
  · rw [h]
    exact mul_nonneg hy.le (Int.fract_nonneg _)
  · rw [h]
    calc y * Int.fract (x / y) < y * 1 :=
          mul_lt_mul_of_pos_left (Int.fract_lt_one _) hy
      _ = y := mul_one y

/-- C4 counterexample: column 0 of the displacement matrix is not the anchor
`[1,0,0]`: at `magnitude = 1`, `angle = 0` the entry in row 1, column 0
equals `2`, not `0`. -/
theorem displacement_matrix_col0_cex :
    D_matrix 1 0 1 0 = 2 ∧ D_matrix 1 0 1 0 ≠ ![(1 : ℝ), 0, 0] 1 := by
  constructor
  · simp [D_matrix]
  · simp [D_matrix]

/-- C4 amended: the displacement and squeezing matrices are exactly the
stated 3×3 real matrices; row 0 of both is the anchor `[1,0,0]`, and
column 0 of the squeezing matrix is also the anchor, but column 0 of the
displacement matrix is `[1, 2·magnitude·cos(angle), 2·magnitude·sin(angle)]`. -/
theorem cv_gate_matrices_amended (m phi : ℝ) :
    D_matrix m phi 0 = ![1, 0, 0]
    ∧ D_matrix m phi 1 = ![2 * m * Real.cos phi, 1, 0]
    ∧ D_matrix m phi 2 = ![2 * m * Real.sin phi, 0, 1]
    ∧ S_matrix m phi 0 = ![1, 0, 0]
    ∧ S_matrix m phi 1 =
        ![0, Real.cosh m - Real.cos phi * Real.sinh m, -Real.sin phi * Real.sinh m]
    ∧ S_matrix m phi 2 =
        ![0, -Real.sin phi * Real.sinh m, Real.cosh m + Real.cos phi * Real.sinh m]
    ∧ (∀ i, S_matrix m phi i 0 = ![1, 0, 0] i)
    ∧ (∀ i, D_matrix m phi i 0 =
        ![1, 2 * m * Real.cos phi, 2 * m * Real.sin phi] i) := by
  refine ⟨rfl, rfl, rfl, rfl, rfl, rfl, ?_, ?_⟩
  · intro i
    fin_cases i <;> rfl
  · intro i
    fin_cases i <;> rfl

/-- Witness for the amended C4 at `magnitude = 1`, `angle = 0`. -/
theorem cv_gate_matrices_amended_witness :
    D_matrix 1 0 0 = ![1, 0, 0]
    ∧ D_matrix 1 0 1 = ![2 * 1 * Real.cos 0, 1, 0]
    ∧ D_matrix 1 0 2 = ![2 * 1 * Real.sin 0, 0, 1]
    ∧ S_matrix 1 0 0 = ![1, 0, 0]
    ∧ S_matrix 1 0 1 =
        ![0, Real.cosh 1 - Real.cos 0 * Real.sinh 1, -Real.sin 0 * Real.sinh 1]
    ∧ S_matrix 1 0 2 =
        ![0, -Real.sin 0 * Real.sinh 1, Real.cosh 1 + Real.cos 0 * Real.sinh 1]
    ∧ (∀ i, S_matrix 1 0 i 0 = ![1, 0, 0] i)
    ∧ (∀ i, D_matrix 1 0 i 0 =
        ![1, 2 * 1 * Real.cos 0, 2 * 1 * Real.sin 0] i) :=
  cv_gate_matrices_amended 1 0

/-- C5: the inverse of either custom gate keeps the class and the magnitude
and replaces the angle by `(angle + π) mod 2π`: the new angle is congruent
to `angle + π` modulo `2π` and lies in `[0, 2π)`; the operation is total, so
it never fails whatever the parameters. -/
theorem cv_gate_inverse_spec (g : CVGate) :
    g.inverse.kind = g.kind
    ∧ g.inverse.magnitude = g.magnitude
    ∧ (∃ k : ℤ, g.inverse.angle = g.angle + Real.pi - 2 * Real.pi * k)
    ∧ 0 ≤ g.inverse.angle ∧ g.inverse.angle < 2 * Real.pi := by
  obtain ⟨k, hk⟩ := pymod_eq_sub (g.angle + Real.pi) (2 * Real.pi)
  obtain ⟨h0, h1⟩ := pymod_mem_Ico (g.angle + Real.pi) (2 * Real.pi) Real.two_pi_pos
  exact ⟨rfl, rfl, ⟨k, hk⟩, h0, h1⟩

/-- Witness for C5 at the displacement gate with `magnitude = 1`,
`angle = 0`. -/
theorem cv_gate_inverse_spec_witness :
    (CVGate.inverse ⟨.displacement, 1, 0⟩).kind = CVKind.displacement
    ∧ (CVGate.inverse ⟨.displacement, 1, 0⟩).magnitude = 1
    ∧ (∃ k : ℤ,
        (CVGate.inverse ⟨.displacement, 1, 0⟩).angle = 0 + Real.pi - 2 * Real.pi * k)
    ∧ 0 ≤ (CVGate.inverse ⟨.displacement, 1, 0⟩).angle
    ∧ (CVGate.inverse ⟨.displacement, 1, 0⟩).angle < 2 * Real.pi :=
  cv_gate_inverse_spec ⟨.displacement, 1, 0⟩

/-- C6: applying the custom-gate inverse twice returns the original angle up
to a multiple of `2π`, and a single inverse keeps the magnitude. -/
theorem cv_gate_inverse_involution (g : CVGate) :
    (∃ k : ℤ, g.inverse.inverse.angle = g.angle + 2 * Real.pi * k)
    ∧ g.inverse.magnitude = g.magnitude := by
  obtain ⟨k1, h1⟩ := pymod_eq_sub (g.angle + Real.pi) (2 * Real.pi)
  obtain ⟨k2, h2⟩ := pymod_eq_sub (g.inverse.angle + Real.pi) (2 * Real.pi)
  have e1 : g.inverse.angle = g.angle + Real.pi - 2 * Real.pi * k1 := h1
  have e2 : g.inverse.inverse.angle = g.inverse.angle + Real.pi - 2 * Real.pi * k2 := h2
  refine ⟨⟨1 - k1 - k2, ?_⟩, rfl⟩
  rw [e2, e1]
  push_cast
  ring

/-- Witness for C6 at the squeezing gate with `magnitude = 1`, `angle = 0`. -/
theorem cv_gate_inverse_involution_witness :
    (∃ k : ℤ,
      (CVGate.inverse (CVGate.inverse ⟨.squeezing, 1, 0⟩)).angle = 0 + 2 * Real.pi * k)
    ∧ (CVGate.inverse ⟨.squeezing, 1, 0⟩).magnitude = 1 :=
  cv_gate_inverse_involution ⟨.squeezing, 1, 0⟩

/-- C10: the inverse's angle is normalized into `[0, 2π)` for every real
input angle, negative values and values of `2π` or more included, and every
magnitude, for both custom gate classes. -/
theorem cv_gate_inverse_angle_range (g : CVGate) :
    0 ≤ g.inverse.angle ∧ g.inverse.angle < 2 * Real.pi :=
  pymod_mem_Ico (g.angle + Real.pi) (2 * Real.pi) Real.two_pi_pos

/-- Witness for C10 at the displacement gate with `magnitude = 1`,
`angle = -7` (a negative angle below `-2π`). -/
theorem cv_gate_inverse_angle_range_witness :
    0 ≤ (CVGate.inverse ⟨.displacement, 1, -7⟩).angle
    ∧ (CVGate.inverse ⟨.displacement, 1, -7⟩).angle < 2 * Real.pi :=
  cv_gate_inverse_angle_range ⟨.displacement, 1, -7⟩

/-! ### Amplitude scheme (modelled from the spec) -/

/-- One controlled rotation-about-X operation of the Amplitude scheme:
target qubit, control qubit, whether this CRX belongs to the pair
surrounding a rotation-about-Y block, and its angle. -/
structure CRXOp where
  target : ℕ
  control : ℕ
  surroundsY : Bool
  angle : ℝ

/-- Modelled from the spec: the CRX-angle rule of the Amplitude scheme,
whose construction code is not part of src/ (the repository README
documents the angle constraints but contains no AmplitudeEmbedding class).
Per the specification: a CRX surrounding a rotation-about-Y block always
carries `π`; the CRX spanning from the target qubit to the most-significant
control qubit `n-1` is `π` at all times; the remaining CRX gates of a
branch whose feeding rotation-about-Z gates are all zero are `0`; any other
CRX carries `π` (the spec constrains it only to lie in {0, π}). -/
noncomputable def amplitudeCRXAngle (n c : ℕ) (sy zeroPhase : Bool) : ℝ :=
  if sy then Real.pi
  else if c = n - 1 then Real.pi
  else if zeroPhase then 0
  else Real.pi

/-- Modelled from the spec: the CRX operations of the Amplitude scheme's
CircuitProgram over `n` qubits, where `zeroRZ t` says whether every
rotation-about-Z gate feeding target qubit `t` is zero.  Each target qubit
`t` contributes the branch CRX gates spanning `t` to each higher control
qubit, plus a surrounding pair for its rotation-about-Y block, with angles
given by `amplitudeCRXAngle`. -/
noncomputable def amplitudeCRXOps (n : ℕ) (zeroRZ : ℕ → Bool) : List CRXOp :=
  (List.range n).flatMap fun t =>
    ((List.range n).filterMap fun c =>
      if t < c then some ⟨t, c, false, amplitudeCRXAngle n c false (zeroRZ t)⟩
      else none)
    ++ [⟨t, n - 1, true, amplitudeCRXAngle n (n - 1) true (zeroRZ t)⟩,
        ⟨t, n - 1, true, amplitudeCRXAngle n (n - 1) true (zeroRZ t)⟩]

/-- C9 (spec-modelled): every CRX angle of the Amplitude scheme's program
is exactly 0 or π; every CRX surrounding a rotation-about-Y block carries
π; and for a target qubit all of whose feeding rotation-about-Z gates are
zero, every branch CRX is 0 except the one spanning to the most-significant
control qubit `n-1`, which is π. -/
theorem amplitude_crx_angles (n : ℕ) (zeroRZ : ℕ → Bool) :
    (amplitudeCRXOps n zeroRZ).Forall fun op =>
      (op.angle = 0 ∨ op.angle = Real.pi)
      ∧ (op.surroundsY = true → op.angle = Real.pi)
      ∧ (zeroRZ op.target = true → op.surroundsY = false →
          (op.control = n - 1 → op.angle = Real.pi)
          ∧ (op.control ≠ n - 1 → op.angle = 0)) := by
  rw [List.forall_iff_forall_mem]
  intro op hop
  rw [amplitudeCRXOps] at hop
  simp only [List.mem_flatMap, List.mem_append, List.mem_filterMap,
    List.mem_range, List.mem_cons, List.not_mem_nil, or_false] at hop
  obtain ⟨t, ht, hbranch | hpair⟩ := hop
  · obtain ⟨c, hc, hcc⟩ := hbranch
    by_cases htc : t < c
    · rw [if_pos htc] at hcc
      obtain rfl := Option.some.inj hcc
      refine ⟨?_, ?_, ?_⟩
      · unfold amplitudeCRXAngle
        split_ifs <;> simp
      · intro hsy
        exact absurd hsy (by simp)
      · intro hz _
        constructor
        · intro hcn
          unfold amplitudeCRXAngle
          rw [if_neg (by simp), if_pos hcn]
        · intro hcn
          unfold amplitudeCRXAngle
          rw [if_neg (by simp), if_neg hcn, if_pos hz]
    · rw [if_neg htc] at hcc
      exact absurd hcc (by simp)
  · have hangle : op.angle = amplitudeCRXAngle n (n - 1) true (zeroRZ t) := by
      rcases hpair with rfl | rfl <;> rfl
    have hsy : op.surroundsY = true := by
      rcases hpair with rfl | rfl <;> rfl
    have hpi : op.angle = Real.pi := by
      rw [hangle]
      unfold amplitudeCRXAngle
      rw [if_pos rfl]
    refine ⟨Or.inr hpi, fun _ => hpi, ?_⟩
    intro _ hns
    rw [hsy] at hns
    exact absurd hns (by simp)

/-- Witness for C9 at `n = 2` with all branches zero-phase. -/
theorem amplitude_crx_angles_witness :
    (amplitudeCRXOps 2 fun _ => true).Forall fun op =>
      (op.angle = 0 ∨ op.angle = Real.pi)
      ∧ (op.surroundsY = true → op.angle = Real.pi)
      ∧ ((fun _ => true : ℕ → Bool) op.target = true → op.surroundsY = false →
          (op.control = 2 - 1 → op.angle = Real.pi)
          ∧ (op.control ≠ 2 - 1 → op.angle = 0)) :=
  amplitude_crx_angles 2 fun _ => true

end QuantumEmbeddings
